import Mathlib

/-!
Shallow embedding of the controlled deep-populate middleware of the demo-site
repository (Strapi backend): the depth/override evaluator
`shouldStopAtCurrentDepth`, the recursive directive builder `getDeepPopulate`,
the URL segment extractor `extractPathSegment`, and the request-interception
wrapper.  Global state of the source (the static `DEPTH_CONFIG` table, the
`strapi.getModel` schema introspection, the `contentTypes.isVisibleAttribute`
visibility predicate and the `pluralize.singular` service) is passed as
explicit parameters; the concrete `DEPTH_CONFIG` value of the source is also
defined.  The recursion of `getDeepPopulate` is embedded with an explicit
fuel parameter; `fuelBound` is the measure-derived amount of fuel past which
the result is proved to be stable, and `getDeepPopulate` itself is the
fuelled function applied at that bound.
-/

set_option linter.unusedVariables false

abbrev Uid := String

/-- One field of a schema: the `attribute.type` tag of the source together
with the kind-specific data the middleware reads (`attribute.relation`,
`attribute.target`, `attribute.component`, `attribute.components`). -/
inductive AttrType where
  | relation (relationKind : String) (target : Option Uid)
  | media
  | component (componentUid : Uid)
  | dynamiczone (components : List Uid)
  | scalar
deriving DecidableEq, Repr

/-- A resolved schema: the ordered `Object.entries(model.attributes)`. -/
structure Model where
  attributes : List (String × AttrType)
deriving DecidableEq, Repr

/-- The schema registry backing `strapi.getModel`: a finite association list
from UID to model (the finite schema graph). -/
abbrev Registry := List (Uid × Model)

/-- The static `DEPTH_CONFIG` table's shape. -/
structure DepthConfig where
  shallowPopulate : List Uid
  mediumPopulate : List Uid
  pathDepths : List (String × Nat)
  excludeFields : List (Uid × List String)
  includeOnlyFields : List (String × List String)
deriving Repr

/-- The concrete `DEPTH_CONFIG` value of the source. -/
def DEPTH_CONFIG : DepthConfig :=
  { shallowPopulate := ["api::user.user", "api::role.role", "api::permission.permission"]
    mediumPopulate := []
    pathDepths := []
    excludeFields := []
    includeOnlyFields := [] }

/-- The `Options` interface.  `maxDepth` and `depthLimits` are declared by the
source but never read by the traversal; they are carried here exactly as the
source carries them through its option spread. -/
structure Options where
  relationalFields : Option (List String) := none
  maxDepth : Nat := 3
  currentDepth : Nat := 0
  visitedUIDs : List Uid := []
  depthLimits : List (String × Nat) := []
deriving Repr

/-- `contentTypes.constants.CREATED_BY_ATTRIBUTE` (external Strapi constant). -/
def CREATED_BY_ATTRIBUTE : String := "createdBy"

/-- `contentTypes.constants.UPDATED_BY_ATTRIBUTE` (external Strapi constant). -/
def UPDATED_BY_ATTRIBUTE : String := "updatedBy"

/-- First-match string-keyed lookup, the behaviour of a JS record read. -/
def lookupStr {α : Type} (m : List (String × α)) (k : String) : Option α :=
  (m.find? (fun p => p.1 == k)).map (fun p => p.2)

/-- `pat` is a prefix of `s` (character lists). -/
def charsHavePre : List Char → List Char → Bool
  | [], _ => true
  | _ :: _, [] => false
  | a :: as, b :: bs => a == b && charsHavePre as bs

/-- `pat` occurs somewhere inside `s` (character lists). -/
def charsContain (pat : List Char) : List Char → Bool
  | [] => charsHavePre pat []
  | c :: rest => charsHavePre pat (c :: rest) || charsContain pat rest

/-- JS `String.prototype.includes`. -/
def strIncludes (s pat : String) : Bool := charsContain pat.toList s.toList

/-- JS `String.prototype.startsWith` (kernel-computable form). -/
def strStarts (s pat : String) : Bool := charsHavePre pat.toList s.toList

/-- JS `String.prototype.toLowerCase` (kernel-computable form of
`String.toLower`: lower-case each character). -/
def toLowerStr (s : String) : String := String.mk (s.toList.map Char.toLower)

/-- `getPathKey`: join the traversal path with dots. -/
def getPathKey (path : List String) : String := String.intercalate "." path

/-- `shouldStopAtCurrentDepth`: path override first, then shallow set (cap 1),
then medium set (cap 2), then the global default cap 3. -/
def shouldStopAtCurrentDepth (cfg : DepthConfig) (uid : Uid) (currentDepth : Nat)
    (path : List String) : Bool :=
  match lookupStr cfg.pathDepths (getPathKey path) with
  | some d => currentDepth ≥ d
  | none =>
    if cfg.shallowPopulate.contains uid then currentDepth ≥ 1
    else if cfg.mediumPopulate.contains uid then currentDepth ≥ 2
    else currentDepth ≥ 3

/-- The stop check the source performs on `attribute.target` one depth deeper:
when the target is absent (`undefined`), the UID-membership tests of
`shouldStopAtCurrentDepth` are false and only the path override or the
default cap can fire. -/
def shouldStopTargetAt (cfg : DepthConfig) (target : Option Uid) (d : Nat)
    (path : List String) : Bool :=
  match target with
  | some t => shouldStopAtCurrentDepth cfg t d path
  | none =>
    match lookupStr cfg.pathDepths (getPathKey path) with
    | some o => d ≥ o
    | none => d ≥ 3

mutual

/-- A populate directive value: the wildcard leaf `'*'`, a field-selection
object `\x7bfield: true, ...\x7d` produced by the include-only rule, or a
field-to-entry object. -/
inductive DirValue where
  | star : DirValue
  | select : List String → DirValue
  | obj : List (String × DirEntry) → DirValue

/-- The value stored under one field name: a `populate` wrapper or the
dynamic-zone `on` per-variant table. -/
inductive DirEntry where
  | populate : DirValue → DirEntry
  | on : List (String × DirEntry) → DirEntry

end

/-- `new Set(visited).add(uid)`: set-semantics insertion. -/
def insertUid (visited : List Uid) (uid : Uid) : List Uid :=
  if visited.contains uid then visited else visited ++ [uid]

/-- The non-empty-object test of the source
(`typeof x === 'object' && Object.keys(x).length > 0`). -/
def isNonEmptyObj : DirValue → Bool
  | .obj fs => !fs.isEmpty
  | _ => false

/-- Wrap a recursive result: a non-empty object becomes a nested populate,
anything else falls back to the wildcard populate. -/
def wrapNested (v : DirValue) : DirEntry :=
  if isNonEmptyObj v then .populate v else .populate .star

/-- The recursive-call options of the source spread:
`\x7b...options, currentDepth: currentDepth + 1, visitedUIDs: newVisitedUIDs\x7d`. -/
def childOptions (o : Options) (newVisited : List Uid) : Options :=
  { o with currentDepth := o.currentDepth + 1, visitedUIDs := newVisited }

/-- The dynamic-zone reduce: one entry per allowed component variant, each
computed by `next` at depth+1 with the path extended by the variant UID. -/
def buildZone (next : Uid → Options → List String → DirValue) (o : Options)
    (nv : List Uid) (currentPath : List String) :
    List Uid → List (Uid × DirEntry) → List (Uid × DirEntry)
  | [], acc => acc
  | c :: rest, acc =>
    buildZone next o nv currentPath rest
      (acc ++ [(c, wrapNested (next c (childOptions o nv) (currentPath ++ [c])))])

/-- The `attributes.reduce` body of `getDeepPopulate`, with the recursive call
abstracted as `next`: exclusion check, include-only check, then dispatch on
the attribute kind. -/
def buildAttrs (cfg : DepthConfig) (isVisible : Model → String → Bool)
    (next : Uid → Options → List String → DirValue) (model : Model) (uid : Uid)
    (options : Options) (nv : List Uid) (path : List String) :
    List (String × AttrType) → List (String × DirEntry) → List (String × DirEntry)
  | [], acc => acc
  | (attributeName, attr) :: rest, acc =>
    let currentPath := path ++ [attributeName]
    let acc' :=
      if (match lookupStr cfg.excludeFields uid with
          | some fs => fs.contains attributeName
          | none => false) then acc
      else
        match (match path.getLast? with
               | some last => lookupStr cfg.includeOnlyFields (last ++ "." ++ attributeName)
               | none => none) with
        | some fieldsToInclude => acc ++ [(attributeName, .populate (.select fieldsToInclude))]
        | none =>
          match attr with
          | .relation relationKind target =>
            if strStarts (toLowerStr relationKind) "morph" then acc
            else if attributeName == CREATED_BY_ATTRIBUTE
                || attributeName == UPDATED_BY_ATTRIBUTE then acc
            else if isVisible model attributeName
                && (match options.relationalFields with
                    | none => true
                    | some rfs => rfs.contains attributeName) then
              if shouldStopTargetAt cfg target (options.currentDepth + 1) currentPath then
                acc ++ [(attributeName, .populate .star)]
              else
                match target with
                | some t =>
                  acc ++ [(attributeName, wrapNested (next t (childOptions options nv) currentPath))]
                | none => acc ++ [(attributeName, .populate .star)]
            else acc
          | .media => acc ++ [(attributeName, .populate .star)]
          | .component c =>
            acc ++ [(attributeName, wrapNested (next c (childOptions options nv) currentPath))]
          | .dynamiczone comps =>
            acc ++ [(attributeName, .on (buildZone next options nv currentPath comps []))]
          | .scalar => acc
    buildAttrs cfg isVisible next model uid options nv path rest acc'

/-- `getDeepPopulate` with an explicit fuel parameter: stop check, cycle
check, schema resolution, then the attribute fold with the recursive call at
one unit less fuel. -/
def getDeepPopulateFuel (cfg : DepthConfig) (reg : Registry)
    (isVisible : Model → String → Bool) :
    Nat → Uid → Options → List String → DirValue
  | 0, _, _, _ => DirValue.star
  | fuel + 1, uid, options, path =>
    if shouldStopAtCurrentDepth cfg uid options.currentDepth path then DirValue.star
    else if options.visitedUIDs.contains uid && decide (0 < options.currentDepth) then
      DirValue.star
    else
      match lookupStr reg uid with
      | none => DirValue.star
      | some model =>
        DirValue.obj (buildAttrs cfg isVisible
          (fun u o p => getDeepPopulateFuel cfg reg isVisible fuel u o p)
          model uid options (insertUid options.visitedUIDs uid) path model.attributes [])

/-- Number of registry keys not yet visited: the decreasing part of the
termination measure. -/
def freeCount (reg : Registry) (visited : List Uid) : Nat :=
  ((reg.map Prod.fst).filter (fun k => !visited.contains k)).length

/-- Fuel past which the fuelled builder is stable: twice the free key count,
plus one for the depth-0 cycle-check exemption, plus one. -/
def fuelBound (reg : Registry) (visited : List Uid) (currentDepth : Nat) : Nat :=
  2 * freeCount reg visited + (if currentDepth = 0 then 1 else 0) + 1

/-- `getDeepPopulate`: the fuelled builder at its stable bound. -/
def getDeepPopulate (cfg : DepthConfig) (reg : Registry)
    (isVisible : Model → String → Bool) (uid : Uid) (opts : Options)
    (path : List String) : DirValue :=
  getDeepPopulateFuel cfg reg isVisible
    (fuelBound reg opts.visitedUIDs opts.currentDepth) uid opts path

/-- The rest of the URL path after `/api/`: the capture of the source regex
`([^/?]+)` followed by an optional `/` or `/digits` suffix, or `none` when
the regex does not match. -/
def apiSegmentOfRest (rest : List Char) : Option String :=
  let seg := rest.takeWhile (fun c => !(c == '/' || c == '?'))
  let rem := rest.dropWhile (fun c => !(c == '/' || c == '?'))
  if seg.isEmpty then none
  else
    match rem with
    | [] => some (String.mk seg)
    | '/' :: ds => if ds.all Char.isDigit then some (String.mk seg) else none
    | _ => none

/-- `extractPathSegment`: strip the query string, then match
`^\/api\/([^/?]+)(?:\/|\/\d+)?$` and return the capture, or `''`. -/
def extractPathSegment (url : String) : String :=
  let path := String.mk (url.toList.takeWhile (fun c => !(c == '?')))
  if strStarts path "/api/" then
    match apiSegmentOfRest (path.drop 5).toList with
    | some seg => seg
    | none => ""
  else ""

/-- The request state the middleware reads: URL, method, and whether the
caller already supplied a populate directive. -/
structure RequestCtx where
  url : String
  method : String
  queryPopulate : Option DirValue

/-- The interception wrapper: under the guard (read method, content-API URL,
no caller populate, URL not under the users/seo namespaces) extract the
content-type segment, singularize it, build `api::<s>.<s>` and compute the
directive; the returned value is the directive injected into
`ctx.query.populate`, `none` when the request proceeds without injection.
The wrapper is a total function: extraction or singularization failure yields
`none`, never an error. -/
def deepPopulateMiddleware (cfg : DepthConfig) (reg : Registry)
    (isVisible : Model → String → Bool) (singularize : String → String)
    (ctx : RequestCtx) : Option DirValue :=
  if strStarts ctx.url "/api/" && ctx.method == "GET" && ctx.queryPopulate.isNone
      && !(strIncludes ctx.url "/api/users") && !(strIncludes ctx.url "/api/seo") then
    let contentType := extractPathSegment ctx.url
    if contentType == "" then none
    else
      let singular := singularize contentType
      if singular == "" then none
      else
        some (getDeepPopulate cfg reg isVisible
          ("api::" ++ singular ++ "." ++ singular) {} [])
  else none

mutual

/-- All keys occurring anywhere in a directive value: field names of objects,
keys of include-only selections, and dynamic-zone variant identifiers. -/
def dirKeys : DirValue → List String
  | .star => []
  | .select fs => fs
  | .obj fields => entriesKeys fields

/-- Keys of an entry list: each field name together with its nested keys. -/
def entriesKeys : List (String × DirEntry) → List String
  | [] => []
  | (k, e) :: rest => k :: (entryKeys e ++ entriesKeys rest)

/-- Keys below one entry. -/
def entryKeys : DirEntry → List String
  | .populate v => dirKeys v
  | .on variants => entriesKeys variants

end

/-- The relation attributes the switch of the source never populates: morph
relations and the two implicit provenance relations. -/
def skippedRelAttr (n : String) : AttrType → Bool
  | .relation relationKind _ =>
    strStarts (toLowerStr relationKind) "morph"
      || n == CREATED_BY_ATTRIBUTE || n == UPDATED_BY_ATTRIBUTE
  | _ => false

/-- An entry that nests further than the wildcard populate. -/
def entryNonLeaf : DirEntry → Bool
  | .populate .star => false
  | _ => true

/-- A directive with at least one field whose own nested directive is
non-leaf. -/
def hasNonLeafField : DirValue → Bool
  | .obj fs => fs.any (fun p => entryNonLeaf p.2)
  | _ => false

/-- The directive entries one attribute contributes, as an independent
function of the attribute, the static configuration, the ancestor state
(options, the extended visited set `nv`) and the path: the sibling-
independent form of the `attributes.reduce` body. -/
def attrDirective (cfg : DepthConfig) (isVisible : Model → String → Bool)
    (next : Uid → Options → List String → DirValue) (model : Model) (uid : Uid)
    (options : Options) (nv : List Uid) (path : List String) :
    String × AttrType → List (String × DirEntry)
  | (attributeName, attr) =>
  let currentPath := path ++ [attributeName]
  if (match lookupStr cfg.excludeFields uid with
      | some fs => fs.contains attributeName
      | none => false) then []
  else
    match (match path.getLast? with
           | some last => lookupStr cfg.includeOnlyFields (last ++ "." ++ attributeName)
           | none => none) with
    | some fieldsToInclude => [(attributeName, .populate (.select fieldsToInclude))]
    | none =>
      match attr with
      | .relation relationKind target =>
        if strStarts (toLowerStr relationKind) "morph" then []
        else if attributeName == CREATED_BY_ATTRIBUTE
            || attributeName == UPDATED_BY_ATTRIBUTE then []
        else if isVisible model attributeName
            && (match options.relationalFields with
                | none => true
                | some rfs => rfs.contains attributeName) then
          if shouldStopTargetAt cfg target (options.currentDepth + 1) currentPath then
            [(attributeName, .populate .star)]
          else
            match target with
            | some t =>
              [(attributeName, wrapNested (next t (childOptions options nv) currentPath))]
            | none => [(attributeName, .populate .star)]
        else []
      | .media => [(attributeName, .populate .star)]
      | .component c =>
        [(attributeName, wrapNested (next c (childOptions options nv) currentPath))]
      | .dynamiczone comps =>
        [(attributeName,
          .on (comps.map (fun c =>
            (c, wrapNested (next c (childOptions options nv) (currentPath ++ [c]))))))]
      | .scalar => []

/-- Visibility predicate accepting everything (the concrete scenarios below
have no hidden attributes). -/
def allVis : Model → String → Bool := fun _ _ => true

/-- A type whose relation points back to itself. -/
def modelA : Model := ⟨[("self", .relation "oneToOne" (some "A"))]⟩

/-- A type with a relation into `A`, not itself related to `A`'s ancestry. -/
def modelB : Model := ⟨[("a2", .relation "oneToOne" (some "A"))]⟩

/-- A root with one branch into the self-referential `A` and a sibling
branch into `B`. -/
def modelR : Model := ⟨[("a", .relation "oneToOne" (some "A")), ("b", .relation "oneToOne" (some "B"))]⟩

/-- Cyclic schema graph for the cycle-truncation scenarios. -/
def cycleReg : Registry := [("R", modelR), ("A", modelA), ("B", modelB)]

/-- A shallow-set type whose relation targets an uncapped type. -/
def userModel : Model := ⟨[("articles", .relation "oneToMany" (some "api::article.article"))]⟩

/-- An uncapped type with a media field. -/
def articleModel : Model := ⟨[("cover", .media)]⟩

/-- Schema graph exercising the shallow set at depth 0. -/
def shallowReg : Registry :=
  [("api::user.user", userModel), ("api::article.article", articleModel)]

/-- The `shared.button` component of the repository (all scalar fields). -/
def sharedButton : Model :=
  ⟨[("target", .scalar), ("text", .scalar), ("url", .scalar), ("variant", .scalar)]⟩

/-- The `dynamic-zone.hero` component of the repository. -/
def heroModel : Model :=
  ⟨[("ctas", .component "shared.button"), ("heading", .scalar), ("sub_heading", .scalar)]⟩

/-- The `dynamic-zone.cta` component of the repository. -/
def ctaModel : Model :=
  ⟨[("ctas", .component "shared.button"), ("heading", .scalar), ("sub_heading", .scalar)]⟩

/-- A page type with a dynamic zone allowing the hero and cta variants. -/
def pageModel : Model :=
  ⟨[("dynamic_zone", .dynamiczone ["dynamic-zone.hero", "dynamic-zone.cta"])]⟩

/-- Schema graph for the dynamic-zone scenario. -/
def zoneReg : Registry :=
  [("api::page.page", pageModel), ("dynamic-zone.hero", heroModel),
   ("dynamic-zone.cta", ctaModel), ("shared.button", sharedButton)]

/-- A model with a morph relation, the provenance relations and one ordinary
relation plus a media field. -/
def morphModel : Model :=
  ⟨[("owner", .relation "morphToMany" none),
    ("createdBy", .relation "oneToOne" (some "admin::user")),
    ("updatedBy", .relation "oneToOne" (some "admin::user")),
    ("friend", .relation "oneToOne" (some "api::buddy.buddy")),
    ("photo", .media)]⟩

/-- Target of the ordinary relation of `morphModel`. -/
def buddyModel : Model := ⟨[("pic", .media)]⟩

/-- Schema graph exercising the morph/provenance skip rules. -/
def morphReg : Registry :=
  [("api::thing.thing", morphModel), ("api::buddy.buddy", buddyModel)]

/-- `n` is not among the allowed variants of a dynamic-zone attribute
(vacuously true for other kinds). -/
def zoneExcludes (n : String) : AttrType → Bool
  | .dynamiczone comps => !comps.contains n
  | _ => true

theorem buildZone_eq_map (next : Uid → Options → List String → DirValue) (o : Options)
    (nv : List Uid) (cp : List String) (comps : List Uid) (acc : List (Uid × DirEntry)) :
    buildZone next o nv cp comps acc
      = acc ++ comps.map (fun c => (c, wrapNested (next c (childOptions o nv) (cp ++ [c])))) := by
  induction comps generalizing acc with
  | nil => simp [buildZone]
  | cons c rest ih => simp [buildZone, ih]

theorem buildAttrs_eq_flatMap (cfg : DepthConfig) (isVisible : Model → String → Bool)
    (next : Uid → Options → List String → DirValue) (model : Model) (uid : Uid)
    (o : Options) (nv : List Uid) (path : List String)
    (attrs : List (String × AttrType)) (acc : List (String × DirEntry)) :
    buildAttrs cfg isVisible next model uid o nv path attrs acc
      = acc ++ attrs.flatMap (attrDirective cfg isVisible next model uid o nv path) := by
  induction attrs generalizing acc with
  | nil => simp [buildAttrs]
  | cons p rest ih =>
    obtain ⟨an, attr⟩ := p
    simp only [buildAttrs, ih, List.flatMap_cons]
    rw [← List.append_assoc]
    congr 1
    simp only [attrDirective]
    cases attr <;> (repeat' split) <;> simp [buildZone_eq_map]

theorem attrDirective_congr (cfg : DepthConfig) (isVisible : Model → String → Bool)
    (next₁ next₂ : Uid → Options → List String → DirValue) (model : Model) (uid : Uid)
    (o₁ o₂ : Options) (nv : List Uid) (path : List String) (p : String × AttrType)
    (hd : o₁.currentDepth = o₂.currentDepth)
    (hr : o₁.relationalFields = o₂.relationalFields)
    (h : ∀ u q, next₁ u (childOptions o₁ nv) q = next₂ u (childOptions o₂ nv) q) :
    attrDirective cfg isVisible next₁ model uid o₁ nv path p
      = attrDirective cfg isVisible next₂ model uid o₂ nv path p := by
  obtain ⟨an, attr⟩ := p
  simp only [attrDirective, hd, hr]
  cases attr <;> simp [h]

theorem filter_and_length_le {l : List Uid} (p q : Uid → Bool) :
    (l.filter (fun k => p k && q k)).length ≤ (l.filter p).length := by
  induction l with
  | nil => simp
  | cons a rest ih =>
    by_cases hp : p a <;> by_cases hq : q a <;>
      simp [List.filter_cons, hp, hq] <;> omega

theorem filter_excl_lt {l : List Uid} {p : Uid → Bool} {u : Uid}
    (hu : u ∈ l) (hp : p u = true) :
    (l.filter (fun k => p k && !(k == u))).length < (l.filter p).length := by
  induction l with
  | nil => cases hu
  | cons a rest ih =>
    rcases List.mem_cons.mp hu with rfl | hmem
    · have h1 : (rest.filter (fun k => p k && !(k == u))).length
          ≤ (rest.filter p).length := filter_and_length_le p (fun k => !(k == u))
      simp [List.filter_cons, hp]
      omega
    · by_cases hpa : p a
      · by_cases hau : a == u
        · have h1 : (rest.filter (fun k => p k && !(k == u))).length
              ≤ (rest.filter p).length := filter_and_length_le p (fun k => !(k == u))
          simp [List.filter_cons, hpa, hau]
          omega
        · have := ih hmem
          simp [List.filter_cons, hpa, hau]
          omega
      · have := ih hmem
        simp [List.filter_cons, hpa]
        omega

theorem freeCount_insert_lt {reg : Registry} {visited : List Uid} {uid : Uid}
    (hk : uid ∈ reg.map Prod.fst) (hv : visited.contains uid = false) :
    freeCount reg (visited ++ [uid]) < freeCount reg visited := by
  unfold freeCount
  have hcongr : (reg.map Prod.fst).filter (fun k => !(visited ++ [uid]).contains k)
      = (reg.map Prod.fst).filter (fun k => (!visited.contains k) && !(k == uid)) := by
    apply List.filter_congr
    intro a _
    simp [List.elem_iff]
    tauto
  rw [hcongr]
  exact filter_excl_lt hk (by simp_all [List.elem_iff])

theorem buildAttrs_congr (cfg : DepthConfig) (isVisible : Model → String → Bool)
    (next₁ next₂ : Uid → Options → List String → DirValue) (model : Model) (uid : Uid)
    (o₁ o₂ : Options) (nv : List Uid) (path : List String)
    (attrs : List (String × AttrType)) (acc : List (String × DirEntry))
    (hd : o₁.currentDepth = o₂.currentDepth)
    (hr : o₁.relationalFields = o₂.relationalFields)
    (h : ∀ u q, next₁ u (childOptions o₁ nv) q = next₂ u (childOptions o₂ nv) q) :
    buildAttrs cfg isVisible next₁ model uid o₁ nv path attrs acc
      = buildAttrs cfg isVisible next₂ model uid o₂ nv path attrs acc := by
  rw [buildAttrs_eq_flatMap, buildAttrs_eq_flatMap]
  have hfun : attrDirective cfg isVisible next₁ model uid o₁ nv path
      = attrDirective cfg isVisible next₂ model uid o₂ nv path :=
    funext (fun p => attrDirective_congr cfg isVisible next₁ next₂ model uid o₁ o₂ nv path p hd hr h)
  rw [hfun]

theorem mem_keys_of_lookup_some {reg : Registry} {uid : Uid} {m : Model}
    (h : lookupStr reg uid = some m) : uid ∈ reg.map Prod.fst := by
  unfold lookupStr at h
  obtain ⟨p, hp, hm⟩ := Option.map_eq_some'.mp h
  have hmem := List.mem_of_find?_eq_some hp
  have hpred := List.find?_some hp
  have : p.1 = uid := by simpa using hpred
  exact this ▸ List.mem_map_of_mem Prod.fst hmem

theorem childBound_le {reg : Registry} {visited : List Uid} {uid : Uid} {d : Nat}
    (hk : uid ∈ reg.map Prod.fst)
    (hcyc : (visited.contains uid && decide (0 < d)) = false) :
    fuelBound reg (insertUid visited uid) (d + 1) + 1 ≤ fuelBound reg visited d := by
  by_cases hv : visited.contains uid
  · have hd : d = 0 := by
      rcases Bool.and_eq_false_iff.mp hcyc with h | h
      · rw [hv] at h; cases h
      · simpa using of_decide_eq_false h
    have hins : insertUid visited uid = visited := by
      have hm : uid ∈ visited := by simpa using hv
      simp [insertUid, hm]
    subst hd
    rw [hins]
    simp [fuelBound]
  · have hv' : visited.contains uid = false := by simpa using hv
    have hins : insertUid visited uid = visited ++ [uid] := by
      have hm : uid ∉ visited := by simpa using hv'
      simp [insertUid, hm]
    have hlt := freeCount_insert_lt hk hv'
    rw [hins]
    simp only [fuelBound]
    split <;> split <;> omega

theorem fuelBound_pos (reg : Registry) (visited : List Uid) (d : Nat) :
    1 ≤ fuelBound reg visited d := by
  simp [fuelBound]

theorem goFuel_stable (cfg : DepthConfig) (reg : Registry) (isv : Model → String → Bool) :
    ∀ f uid (opts : Options) path, fuelBound reg opts.visitedUIDs opts.currentDepth ≤ f →
    getDeepPopulateFuel cfg reg isv f uid opts path
      = getDeepPopulate cfg reg isv uid opts path := by
  intro f
  induction f using Nat.strong_induction_on with
  | _ f ih =>
    intro uid opts path hf
    obtain ⟨f', rfl⟩ : ∃ f', f = f' + 1 := by
      have h1 := fuelBound_pos reg opts.visitedUIDs opts.currentDepth
      exact ⟨f - 1, by omega⟩
    unfold getDeepPopulate
    obtain ⟨b', hb⟩ : ∃ b', fuelBound reg opts.visitedUIDs opts.currentDepth = b' + 1 := by
      have h1 := fuelBound_pos reg opts.visitedUIDs opts.currentDepth
      exact ⟨fuelBound reg opts.visitedUIDs opts.currentDepth - 1, by omega⟩
    rw [hb]
    have hb'f : b' ≤ f' := by omega
    simp only [getDeepPopulateFuel]
    split
    · rfl
    next hstop =>
      split
      · rfl
      next hcyc =>
        cases hlook : lookupStr reg uid with
        | none => simp [hlook]
        | some model =>
          simp only [hlook]
          have hk := mem_keys_of_lookup_some hlook
          have hcyc' : (opts.visitedUIDs.contains uid && decide (0 < opts.currentDepth)) = false := by
            simpa using hcyc
          have hchild := @childBound_le reg opts.visitedUIDs uid opts.currentDepth hk hcyc'
          rw [hb] at hchild
          congr 1
          apply buildAttrs_congr _ _ _ _ _ _ _ _ _ _ _ _ rfl rfl
          intro u q
          have h1 := ih f' (by omega) u (childOptions opts (insertUid opts.visitedUIDs uid)) q
            (by simp only [childOptions]; omega)
          have h2 := ih b' (by omega) u (childOptions opts (insertUid opts.visitedUIDs uid)) q
            (by simp only [childOptions]; omega)
          rw [h1, h2]

theorem getDeepPopulate_unfold (cfg : DepthConfig) (reg : Registry)
    (isv : Model → String → Bool) (uid : Uid) (opts : Options) (path : List String) :
    getDeepPopulate cfg reg isv uid opts path =
      (if shouldStopAtCurrentDepth cfg uid opts.currentDepth path then DirValue.star
       else if opts.visitedUIDs.contains uid && decide (0 < opts.currentDepth) then DirValue.star
       else
         match lookupStr reg uid with
         | none => DirValue.star
         | some model =>
           DirValue.obj (buildAttrs cfg isv (fun u o p => getDeepPopulate cfg reg isv u o p)
             model uid opts (insertUid opts.visitedUIDs uid) path model.attributes [])) := by
  conv_lhs => rw [getDeepPopulate]
  obtain ⟨b', hb⟩ : ∃ b', fuelBound reg opts.visitedUIDs opts.currentDepth = b' + 1 := by
    have h1 := fuelBound_pos reg opts.visitedUIDs opts.currentDepth
    exact ⟨fuelBound reg opts.visitedUIDs opts.currentDepth - 1, by omega⟩
  rw [hb]
  simp only [getDeepPopulateFuel]
  split
  · rfl
  next hstop =>
    split
    · rfl
    next hcyc =>
      cases hlook : lookupStr reg uid with
      | none => simp [hlook]
      | some model =>
        simp only [hlook]
        have hk := mem_keys_of_lookup_some hlook
        have hcyc' : (opts.visitedUIDs.contains uid && decide (0 < opts.currentDepth)) = false := by
          simpa using hcyc
        have hchild := @childBound_le reg opts.visitedUIDs uid opts.currentDepth hk hcyc'
        rw [hb] at hchild
        congr 1
        apply buildAttrs_congr _ _ _ _ _ _ _ _ _ _ _ _ rfl rfl
        intro u q
        exact goFuel_stable cfg reg isv b' u (childOptions opts (insertUid opts.visitedUIDs uid)) q
          (by simp only [childOptions]; omega)

theorem goFuel_agree (cfg : DepthConfig) (reg : Registry) (isv : Model → String → Bool) :
    ∀ (f : Nat) (uid : Uid) (o₁ o₂ : Options) (path : List String),
    o₁.currentDepth = o₂.currentDepth → o₁.visitedUIDs = o₂.visitedUIDs →
    o₁.relationalFields = o₂.relationalFields →
    getDeepPopulateFuel cfg reg isv f uid o₁ path
      = getDeepPopulateFuel cfg reg isv f uid o₂ path := by
  intro f
  induction f with
  | zero => intros; rfl
  | succ f ih =>
    intro uid o₁ o₂ path hd hv hr
    simp only [getDeepPopulateFuel, hd, hv]
    split
    · rfl
    split
    · rfl
    cases hlook : lookupStr reg uid with
    | none => simp [hlook]
    | some model =>
      simp only [hlook]
      congr 1
      apply buildAttrs_congr _ _ _ _ _ _ _ _ _ _ _ _ hd hr
      intro u q
      exact ih u _ _ q (by simp [childOptions, hd]) (by simp [childOptions])
        (by simp [childOptions, hr])

theorem entriesKeys_append (l₁ l₂ : List (String × DirEntry)) :
    entriesKeys (l₁ ++ l₂) = entriesKeys l₁ ++ entriesKeys l₂ := by
  induction l₁ with
  | nil => simp [entriesKeys]
  | cons p rest ih =>
    obtain ⟨k, e⟩ := p
    simp [entriesKeys, ih]

theorem not_mem_entryKeys_wrapNested {n : String} {v : DirValue}
    (h : n ∉ dirKeys v) : n ∉ entryKeys (wrapNested v) := by
  unfold wrapNested
  split
  · simpa [entryKeys] using h
  · simp [entryKeys, dirKeys]

theorem mem_values_of_lookup_some {reg : Registry} {uid : Uid} {m : Model}
    (h : lookupStr reg uid = some m) : m ∈ reg.map Prod.snd := by
  unfold lookupStr at h
  obtain ⟨p, hp, hm⟩ := Option.map_eq_some'.mp h
  exact hm ▸ List.mem_map_of_mem Prod.snd (List.mem_of_find?_eq_some hp)

theorem zone_map_keys {n : String} (next : Uid → Options → List String → DirValue)
    (o : Options) (nv : List Uid) (cp : List String) (comps : List Uid)
    (hnext : ∀ u o' q, n ∉ dirKeys (next u o' q)) (hc : comps.contains n = false) :
    n ∉ entriesKeys (comps.map (fun c =>
      (c, wrapNested (next c (childOptions o nv) (cp ++ [c]))))) := by
  induction comps with
  | nil => simp [entriesKeys]
  | cons c rest ih =>
    have hc' : rest.contains n = false := by
      simp only [List.contains_cons, Bool.or_eq_false_iff] at hc
      exact hc.2
    have hne : n ≠ c := by
      simp only [List.contains_cons, Bool.or_eq_false_iff] at hc
      intro he
      rw [he] at hc
      simp at hc
    simp only [List.map_cons, entriesKeys]
    intro hmem
    rcases List.mem_cons.mp hmem with he | hmem2
    · exact hne he
    · rcases List.mem_append.mp hmem2 with h1 | h2
      · exact not_mem_entryKeys_wrapNested (hnext _ _ _) h1
      · exact ih hc' h2

theorem flatMap_entriesKeys {n : String} (f : (String × AttrType) → List (String × DirEntry))
    (attrs : List (String × AttrType))
    (h : ∀ p ∈ attrs, n ∉ entriesKeys (f p)) :
    n ∉ entriesKeys (attrs.flatMap f) := by
  induction attrs with
  | nil => simp [entriesKeys]
  | cons p rest ih =>
    simp only [List.flatMap_cons, entriesKeys_append]
    intro hmem
    rcases List.mem_append.mp hmem with h1 | h2
    · exact h p (by simp) h1
    · exact ih (fun q hq => h q (by simp [hq])) h2

theorem not_mem_entriesKeys_single {n an : String} {e : DirEntry}
    (h1 : n ≠ an) (h2 : n ∉ entryKeys e) : n ∉ entriesKeys [(an, e)] := by
  intro hmem
  simp only [entriesKeys, List.append_nil] at hmem
  rcases List.mem_cons.mp hmem with he | he
  · exact h1 he
  · exact h2 he
theorem attrDirective_keys (cfg : DepthConfig) (isv : Model → String → Bool)
    (next : Uid → Options → List String → DirValue) (model : Model) (uid : Uid)
    (o : Options) (nv : List Uid) (path : List String) (p : String × AttrType) {n : String}
    (hinc : cfg.includeOnlyFields = [])
    (hnext : ∀ u o' q, n ∉ dirKeys (next u o' q))
    (hskip : p.1 = n → skippedRelAttr n p.2 = true)
    (hzone : zoneExcludes n p.2 = true) :
    n ∉ entriesKeys (attrDirective cfg isv next model uid o nv path p) := by
  obtain ⟨an, attr⟩ := p
  have hlook : ∀ k, lookupStr cfg.includeOnlyFields k = none := by
    intro k
    rw [hinc]
    rfl
  have hstar : n ∉ entryKeys (DirEntry.populate DirValue.star) := by
    simp [entryKeys, dirKeys]
  simp only [attrDirective]
  split
  · simp [entriesKeys]
  · have hio : (match path.getLast? with
        | some last => lookupStr cfg.includeOnlyFields (last ++ "." ++ an)
        | none => none) = none := by
      cases path.getLast? <;> simp [hlook]
    simp only [hio]
    cases attr with
    | relation relationKind target =>
      dsimp only
      split
      · simp [entriesKeys]
      next hmorph =>
        split
        · simp [entriesKeys]
        next hprov =>
          have hne : n ≠ an := by
            intro he
            subst he
            have h := hskip rfl
            simp only [skippedRelAttr, Bool.or_eq_true, beq_iff_eq] at h
            rcases h with (hm | hcb) | hub
            · exact hmorph hm
            · exact hprov (by simp [hcb])
            · exact hprov (by simp [hub])
          split
          next hvis =>
            split
            · exact not_mem_entriesKeys_single hne hstar
            · cases target with
              | some t =>
                dsimp only
                exact not_mem_entriesKeys_single hne
                  (not_mem_entryKeys_wrapNested (hnext _ _ _))
              | none =>
                dsimp only
                exact not_mem_entriesKeys_single hne hstar
          next hvis => simp [entriesKeys]
    | media =>
      dsimp only
      have hne : n ≠ an := by
        intro he
        subst he
        have h := hskip rfl
        simp [skippedRelAttr] at h
      exact not_mem_entriesKeys_single hne hstar
    | component c =>
      dsimp only
      have hne : n ≠ an := by
        intro he
        subst he
        have h := hskip rfl
        simp [skippedRelAttr] at h
      exact not_mem_entriesKeys_single hne
        (not_mem_entryKeys_wrapNested (hnext _ _ _))
    | dynamiczone comps =>
      dsimp only
      have hne : n ≠ an := by
        intro he
        subst he
        have h := hskip rfl
        simp [skippedRelAttr] at h
      have hcz : comps.contains n = false := by
        simpa [zoneExcludes] using hzone
      refine not_mem_entriesKeys_single hne ?_
      simpa [entryKeys] using zone_map_keys next o nv (path ++ [an]) comps hnext hcz
    | scalar =>
      dsimp only
      simp [entriesKeys]

theorem goFuel_no_key (cfg : DepthConfig) (reg : Registry) (isv : Model → String → Bool)
    {n : String} (hinc : cfg.includeOnlyFields = [])
    (hmodels : ∀ m ∈ reg.map Prod.snd, ∀ p ∈ m.attributes,
       (p.1 = n → skippedRelAttr n p.2 = true) ∧ zoneExcludes n p.2 = true) :
    ∀ (f : Nat) (uid : Uid) (opts : Options) (path : List String),
      n ∉ dirKeys (getDeepPopulateFuel cfg reg isv f uid opts path) := by
  intro f
  induction f with
  | zero =>
    intro uid opts path
    simp [getDeepPopulateFuel, dirKeys]
  | succ f ih =>
    intro uid opts path
    simp only [getDeepPopulateFuel]
    split
    · simp [dirKeys]
    · split
      · simp [dirKeys]
      · cases hlook : lookupStr reg uid with
        | none => simp [dirKeys]
        | some model =>
          dsimp only
          rw [buildAttrs_eq_flatMap]
          simp only [dirKeys, List.nil_append]
          apply flatMap_entriesKeys
          intro p hp
          have hm := hmodels model (mem_values_of_lookup_some hlook) p hp
          exact attrDirective_keys cfg isv _ model uid opts _ path p hinc
            (fun u o' q => ih u o' q) hm.1 hm.2



/-- Claim C1: for every finite schema graph the directive builder terminates:
the fuelled builder is stable at `fuelBound` (any extra fuel gives the same
result, so the unbounded recursion of the source reaches no deeper), and
along every recursive call that actually recurses (schema resolved, the
cycle guard passed) the measure `fuelBound` strictly decreases: the depth
increases, the visited set grows, and every branch ends at a depth cap, a
revisited type, or a missing schema. -/
theorem getDeepPopulate_terminates :
    (∀ (cfg : DepthConfig) (reg : Registry) (isv : Model → String → Bool) (uid : Uid)
       (opts : Options) (path : List String) (k : Nat),
       getDeepPopulateFuel cfg reg isv (fuelBound reg opts.visitedUIDs opts.currentDepth + k)
         uid opts path = getDeepPopulate cfg reg isv uid opts path)
  ∧ (∀ (reg : Registry) (visited : List Uid) (uid : Uid) (d : Nat),
       uid ∈ reg.map Prod.fst → (visited.contains uid && decide (0 < d)) = false →
       fuelBound reg (insertUid visited uid) (d + 1) + 1 ≤ fuelBound reg visited d) := by
  constructor
  · intro cfg reg isv uid opts path k
    exact goFuel_stable cfg reg isv _ uid opts path (by omega)
  · intro reg visited uid d hk hc
    exact childBound_le hk hc

theorem getDeepPopulate_terminates_witness :
    getDeepPopulateFuel DEPTH_CONFIG cycleReg allVis (fuelBound cycleReg [] 0 + 5) "A"
        { } [] = getDeepPopulate DEPTH_CONFIG cycleReg allVis "A" { } []
  ∧ fuelBound cycleReg (insertUid [] "A") 1 + 1 ≤ fuelBound cycleReg [] 0 :=
  ⟨getDeepPopulate_terminates.1 DEPTH_CONFIG cycleReg allVis "A" { } [] 5,
   getDeepPopulate_terminates.2 cycleReg [] "A" 0 (by decide) (by decide)⟩

/-- Claim C2: a revisited type at depth above zero yields the wildcard leaf
(the revisit check needs membership and `depth > 0`); concretely, the
self-referential type `A` is truncated to a wildcard at its second
occurrence, a sibling branch through `B` whose ancestry does not contain `A`
still recurses normally into `A` (producing a nested object, not a
wildcard), and the root type at depth 0 is exempt from the revisit check
even when pre-seeded in the visited set. -/
theorem cycle_truncation :
    (∀ (cfg : DepthConfig) (reg : Registry) (isv : Model → String → Bool) (uid : Uid)
       (opts : Options) (path : List String),
       opts.visitedUIDs.contains uid = true → 0 < opts.currentDepth →
       getDeepPopulate cfg reg isv uid opts path = DirValue.star)
  ∧ getDeepPopulate DEPTH_CONFIG cycleReg allVis "A" { } []
      = DirValue.obj [("self", DirEntry.populate DirValue.star)]
  ∧ getDeepPopulate DEPTH_CONFIG cycleReg allVis "R" { } []
      = DirValue.obj
          [("a", DirEntry.populate (DirValue.obj [("self", DirEntry.populate DirValue.star)])),
           ("b", DirEntry.populate (DirValue.obj
              [("a2", DirEntry.populate
                 (DirValue.obj [("self", DirEntry.populate DirValue.star)]))]))]
  ∧ getDeepPopulate DEPTH_CONFIG cycleReg allVis "A" { visitedUIDs := ["A"] } []
      = DirValue.obj [("self", DirEntry.populate DirValue.star)] := by
  refine ⟨?_, by rfl, by rfl, by rfl⟩
  intro cfg reg isv uid opts path hc hd
  have hm : uid ∈ opts.visitedUIDs := by simpa using hc
  rw [getDeepPopulate_unfold]
  simp [hm, hd]

theorem cycle_truncation_witness :
    getDeepPopulate DEPTH_CONFIG cycleReg allVis "A"
      { visitedUIDs := ["A"], currentDepth := 1 } [] = DirValue.star :=
  cycle_truncation.1 DEPTH_CONFIG cycleReg allVis "A"
    { visitedUIDs := ["A"], currentDepth := 1 } [] (by rfl) (by decide)

/-- Claim C3: `shouldStopAtCurrentDepth` follows first-match precedence: an
exact path-depth override decides alone when present; otherwise the shallow
set caps at depth 1, otherwise the medium set at depth 2, otherwise the
global default at depth 3. -/
theorem shouldStop_precedence (cfg : DepthConfig) (uid : Uid) (d : Nat) (path : List String) :
    (∀ o, lookupStr cfg.pathDepths (getPathKey path) = some o →
       (shouldStopAtCurrentDepth cfg uid d path = true ↔ o ≤ d))
  ∧ (lookupStr cfg.pathDepths (getPathKey path) = none →
       cfg.shallowPopulate.contains uid = true →
       (shouldStopAtCurrentDepth cfg uid d path = true ↔ 1 ≤ d))
  ∧ (lookupStr cfg.pathDepths (getPathKey path) = none →
       cfg.shallowPopulate.contains uid = false →
       cfg.mediumPopulate.contains uid = true →
       (shouldStopAtCurrentDepth cfg uid d path = true ↔ 2 ≤ d))
  ∧ (lookupStr cfg.pathDepths (getPathKey path) = none →
       cfg.shallowPopulate.contains uid = false →
       cfg.mediumPopulate.contains uid = false →
       (shouldStopAtCurrentDepth cfg uid d path = true ↔ 3 ≤ d)) := by
  refine ⟨?_, ?_, ?_, ?_⟩ <;> intros <;> simp_all [shouldStopAtCurrentDepth]

theorem shouldStop_precedence_witness :
    shouldStopAtCurrentDepth DEPTH_CONFIG "api::user.user" 1 [] = true :=
  ((shouldStop_precedence DEPTH_CONFIG "api::user.user" 1 []).2.1 (by rfl) (by rfl)).mpr
    (by omega)

/-- Claim C4 counterexample: the claim fails as stated.  `api::user.user` is
in the shallow set, yet the directive built for it at depth 0 contains the
field `articles` whose own nested directive is a non-leaf object (the
shallow cap applies to calls on the shallow type itself, not to the targets
of its relations). -/
theorem shallow_depth0_nonleaf_counterexample :
    DEPTH_CONFIG.shallowPopulate.contains "api::user.user" = true
  ∧ getDeepPopulate DEPTH_CONFIG shallowReg allVis "api::user.user" { } []
      = DirValue.obj [("articles", DirEntry.populate
          (DirValue.obj [("cover", DirEntry.populate DirValue.star)]))]
  ∧ hasNonLeafField (getDeepPopulate DEPTH_CONFIG shallowReg allVis "api::user.user" { } [])
      = true :=
  ⟨rfl, rfl, rfl⟩

/-- Claim C4 amended: a type in the shallow set stops as soon as it is
reached at depth 1 or more — any call of the builder on a shallow-set type
at depth at least 1 returns the wildcard leaf, so such a type reached
through a relation resolves to a wildcard one level in; the shallow-set root
itself at depth 0 may still recurse into targets that are not capped. -/
theorem shallow_stops_from_depth_one (reg : Registry) (isv : Model → String → Bool)
    (uid : Uid) (opts : Options) (path : List String)
    (hs : DEPTH_CONFIG.shallowPopulate.contains uid = true)
    (hd : 1 ≤ opts.currentDepth) :
    getDeepPopulate DEPTH_CONFIG reg isv uid opts path = DirValue.star := by
  rw [getDeepPopulate_unfold]
  have hnone : lookupStr DEPTH_CONFIG.pathDepths (getPathKey path) = none := rfl
  have hstop : shouldStopAtCurrentDepth DEPTH_CONFIG uid opts.currentDepth path = true := by
    simp only [shouldStopAtCurrentDepth, hnone, hs]
    simp [hd]
  simp [hstop]

theorem shallow_stops_from_depth_one_witness :
    getDeepPopulate DEPTH_CONFIG shallowReg allVis "api::user.user" { currentDepth := 1 } []
      = DirValue.star :=
  shallow_stops_from_depth_one shallowReg allVis "api::user.user" { currentDepth := 1 } []
    (by rfl) (by decide)

/-- Claim C5: a dynamic-zone attribute is emitted as an on-variant structure
with one entry per allowed component variant, each variant directive an
independent recursive call at depth+1 (`childOptions`) with the path
extended by the variant identifier; concretely, the page type with variants
hero and cta yields the per-variant `on` table, each variant independently
depth-limited. -/
theorem dynamiczone_on_variants :
    (∀ (next : Uid → Options → List String → DirValue) (o : Options) (nv : List Uid)
       (cp : List String) (comps : List Uid),
       buildZone next o nv cp comps []
         = comps.map (fun c => (c, wrapNested (next c (childOptions o nv) (cp ++ [c])))))
  ∧ getDeepPopulate DEPTH_CONFIG zoneReg allVis "api::page.page" { } []
      = DirValue.obj [("dynamic_zone", DirEntry.on
          [("dynamic-zone.hero",
            DirEntry.populate (DirValue.obj [("ctas", DirEntry.populate DirValue.star)])),
           ("dynamic-zone.cta",
            DirEntry.populate (DirValue.obj [("ctas", DirEntry.populate DirValue.star)]))])] := by
  refine ⟨?_, rfl⟩
  intro next o nv cp comps
  simpa using buildZone_eq_map next o nv cp comps []

/-- Claim C6: a field name that occurs in the schema graph only as a morph
relation or as one of the provenance relations (created-by/updated-by), and
is not a dynamic-zone variant identifier, never appears as a key anywhere in
the directive built under the source configuration. -/
theorem morph_provenance_absent (reg : Registry) (isv : Model → String → Bool)
    (uid : Uid) (opts : Options) (path : List String) (n : String)
    (hmodels : ∀ m ∈ reg.map Prod.snd, ∀ p ∈ m.attributes,
       (p.1 = n → skippedRelAttr n p.2 = true) ∧ zoneExcludes n p.2 = true) :
    n ∉ dirKeys (getDeepPopulate DEPTH_CONFIG reg isv uid opts path) := by
  unfold getDeepPopulate
  exact goFuel_no_key DEPTH_CONFIG reg isv rfl hmodels _ uid opts path

theorem morph_provenance_absent_witness :
    "createdBy" ∉ dirKeys (getDeepPopulate DEPTH_CONFIG morphReg allVis
      "api::thing.thing" { } []) :=
  morph_provenance_absent morphReg allVis "api::thing.thing" { } [] "createdBy" (by decide)

/-- Claim C7: an unresolvable type identifier makes the builder return the
wildcard leaf for that subtree; the lookup failure is never propagated (the
builder is a total function). -/
theorem unknown_type_wildcard (cfg : DepthConfig) (reg : Registry)
    (isv : Model → String → Bool) (uid : Uid) (opts : Options) (path : List String)
    (h : lookupStr reg uid = none) :
    getDeepPopulate cfg reg isv uid opts path = DirValue.star := by
  rw [getDeepPopulate_unfold]
  split
  · rfl
  split
  · rfl
  simp [h]

theorem unknown_type_wildcard_witness :
    getDeepPopulate DEPTH_CONFIG zoneReg allVis "api::ghost.ghost" { } [] = DirValue.star :=
  unknown_type_wildcard DEPTH_CONFIG zoneReg allVis "api::ghost.ghost" { } [] (by rfl)

/-- Claim C8: the visited set is never mutated in place — every attribute of
a model is processed with the same ancestor-extended copy
`insertUid opts.visitedUIDs uid` of the caller's set, so sibling branches
cannot observe each other's markers: the attribute fold equals an
accumulator-independent flat map of per-attribute directives, each a
function of the ancestor state only, and a recursing call of the builder
equals exactly that flat map over its model's attributes. -/
theorem visited_frame_siblings :
    (∀ (cfg : DepthConfig) (isv : Model → String → Bool)
       (next : Uid → Options → List String → DirValue) (model : Model) (uid : Uid)
       (o : Options) (nv : List Uid) (path : List String)
       (attrs : List (String × AttrType)) (acc : List (String × DirEntry)),
       buildAttrs cfg isv next model uid o nv path attrs acc
         = acc ++ attrs.flatMap (attrDirective cfg isv next model uid o nv path))
  ∧ (∀ (cfg : DepthConfig) (reg : Registry) (isv : Model → String → Bool) (uid : Uid)
       (opts : Options) (path : List String) (model : Model),
       shouldStopAtCurrentDepth cfg uid opts.currentDepth path = false →
       (opts.visitedUIDs.contains uid && decide (0 < opts.currentDepth)) = false →
       lookupStr reg uid = some model →
       getDeepPopulate cfg reg isv uid opts path
         = DirValue.obj (model.attributes.flatMap
             (attrDirective cfg isv (fun u o p => getDeepPopulate cfg reg isv u o p)
               model uid opts (insertUid opts.visitedUIDs uid) path))) := by
  constructor
  · intro cfg isv next model uid o nv path attrs acc
    exact buildAttrs_eq_flatMap cfg isv next model uid o nv path attrs acc
  · intro cfg reg isv uid opts path model h1 h2 h3
    rw [getDeepPopulate_unfold]
    rw [h1]
    simp only [Bool.false_eq_true, if_false, h2, h3]
    rw [buildAttrs_eq_flatMap]
    simp

theorem visited_frame_siblings_witness :
    getDeepPopulate DEPTH_CONFIG cycleReg allVis "R" { } []
      = DirValue.obj (modelR.attributes.flatMap
          (attrDirective DEPTH_CONFIG allVis
            (fun u o p => getDeepPopulate DEPTH_CONFIG cycleReg allVis u o p)
            modelR "R" { } (insertUid [] "R") [])) :=
  visited_frame_siblings.2 DEPTH_CONFIG cycleReg allVis "R" { } [] modelR rfl rfl rfl

/-- Claim C9: the interception wrapper injects a directive exactly when the
method is a read, the URL is under the content-API namespace, no caller
populate is present, the URL is outside the users/seo namespaces, and both
content-type extraction and singularization succeed; when it injects, the
value is the builder's directive for the canonical identifier, and on
extraction or singularization failure the request proceeds with no injected
directive and no error (the wrapper is a total function). -/
theorem middleware_guard (cfg : DepthConfig) (reg : Registry) (isv : Model → String → Bool)
    (sing : String → String) (ctx : RequestCtx) :
    ((deepPopulateMiddleware cfg reg isv sing ctx).isSome = true ↔
      (strStarts ctx.url "/api/" = true ∧ ctx.method = "GET" ∧ ctx.queryPopulate = none
       ∧ strIncludes ctx.url "/api/users" = false ∧ strIncludes ctx.url "/api/seo" = false
       ∧ extractPathSegment ctx.url ≠ "" ∧ sing (extractPathSegment ctx.url) ≠ ""))
  ∧ ((deepPopulateMiddleware cfg reg isv sing ctx).isSome = true →
      deepPopulateMiddleware cfg reg isv sing ctx
        = some (getDeepPopulate cfg reg isv
            ("api::" ++ sing (extractPathSegment ctx.url) ++ "."
              ++ sing (extractPathSegment ctx.url)) { } [])) := by
  unfold deepPopulateMiddleware
  constructor
  · split
    next hcond =>
      simp only [Bool.and_eq_true, Bool.not_eq_true'] at hcond
      dsimp only
      split
      next hct =>
        simp_all
      next hct =>
        split
        next hsing =>
          simp_all
        next hsing =>
          simp_all
    next hcond =>
      simp only [Bool.and_eq_true, Bool.not_eq_true'] at hcond
      simp_all
  · split
    next hcond =>
      dsimp only
      split
      next hct => simp
      next hct =>
        split
        next hsing => simp
        next hsing => simp
    next hcond => simp

theorem middleware_guard_witness :
    deepPopulateMiddleware DEPTH_CONFIG [] allVis (fun _ => "article")
        ⟨"/api/articles", "GET", none⟩
      = some (getDeepPopulate DEPTH_CONFIG [] allVis "api::article.article" { } []) :=
  (middleware_guard DEPTH_CONFIG [] allVis (fun _ => "article")
    ⟨"/api/articles", "GET", none⟩).2 (by rfl)

/-- Claim C10: the `maxDepth` option is declared and defaulted but never
consulted: the builder returns the same directive for any two values of it,
for every configuration, registry, type, path and visited set. -/
theorem maxDepth_unused (cfg : DepthConfig) (reg : Registry) (isv : Model → String → Bool)
    (uid : Uid) (o : Options) (path : List String) (m₁ m₂ : Nat) :
    getDeepPopulate cfg reg isv uid { o with maxDepth := m₁ } path
      = getDeepPopulate cfg reg isv uid { o with maxDepth := m₂ } path := by
  unfold getDeepPopulate
  exact goFuel_agree cfg reg isv _ uid _ _ path rfl rfl rfl
